import Mathlib

/-!
Shallow embedding of TEMPEST (tempest.py), the modified-Parker-equation
solar-wind solver, together with proofs settling the frozen claims about it.

Floating-point arithmetic is modelled as exact arithmetic in a linear ordered
field `α`; concrete evaluations instantiate `α := ℚ` (decidable), while the
parts of the code that use `np.sqrt` are embedded over `ℝ`.  A numpy
floating-point exception (the module sets `np.seterr(divide='raise')`) is
modelled by total field division `x / 0 = 0`; no claim below depends on the
value produced at such a point.  Arrays are embedded as `List α` (when the
code reads them through `np.interp` or iterates them) or as functions
`ℕ → α` (when the code only indexes them).
-/

section Tempest

variable {α : Type*} [LinearOrderedField α]

/-- `np.sign`: 1 for positive, -1 for negative, 0 for zero. -/
def npSign (x : α) : ℤ :=
  if 0 < x then 1 else if x < 0 then -1 else 0

/-- Helper for `interp`: walk the remaining sample points.  `x0, f0` are the
most recent sample already passed; past the last sample the last value is
returned (numpy clamps on the right). -/
def interpGo (x : α) : α → α → List α → List α → α
  | x0, f0, x1 :: xs, f1 :: fs =>
    if x ≤ x1 then f0 + (f1 - f0) * (x - x0) / (x1 - x0)
    else interpGo x x1 f1 xs fs
  | _, f0, _, _ => f0

/-- `np.interp x xp fp`: piecewise-linear interpolation on ascending sample
positions `xp` with values `fp`, clamped to the end values outside the range. -/
def interp (x : α) (xp fp : List α) : α :=
  match xp, fp with
  | x0 :: xs, f0 :: fs => if x ≤ x0 then f0 else interpGo x x0 f0 xs fs
  | _, _ => 0

/-- The two shapes of the `dfdr` argument of `rk4`/`dfdrval`: either a plain
precomputed derivative profile (a numpy array in the source), or the pair
`(ucr, rhs)` of critical-speed and RHS profiles (a tuple in the source,
dispatched on by `isinstance(dfdr, np.ndarray)`). -/
inductive SlopeSource (α : Type*) where
  | plain : List α → SlopeSource α
  | critOde : List α → List α → SlopeSource α

/-- `dfdrval(uval, rval, rarray, dfdr)`: interpolated slope at position `rval`
and value `uval`.  In `critOde` mode this is `rhs / (u - ucr^2/u)`, the
momentum-equation slope. -/
def dfdrval (uval rval : α) (rarray : List α) (dfdr : SlopeSource α) : α :=
  match dfdr with
  | .critOde ucr rhs =>
    let ucrval := interp rval rarray ucr
    let rhsval := interp rval rarray rhs
    rhsval / (uval - ucrval ^ 2 / uval)
  | .plain d => interp rval rarray d

/-- The loop state of `rk4`: current position, current value, total absolute
distance stepped, number of sub-steps taken, and the value of the Python local
variable `ff` (`none` while it is still unassigned, i.e. before the first
iteration of the loop body). -/
structure RKState (α : Type*) where
  rstep : α
  fstep : α
  stepstotal : α
  stepstaken : ℕ
  ff : Option α

/-- The `adaptiveconstant` of `rk4`. -/
def adaptiveconstant : α := 1 / 10

/-- The `np.sign(dr)` computed at the top of `rk4`. -/
def rkSign (dr : α) : α := if 0 < dr then 1 else if dr < 0 then -1 else 0

/-- The adaptive sub-step `deltar` chosen by one iteration of `rk4`'s loop:
the ratio of `adaptiveconstant` to the absolute logarithmic slope
`dlnf = dfdrval(..)/fstep`, signed in the direction of travel, then clamped
to the remaining distance when it would overshoot `dr` or when more than
100 sub-steps have already been taken. -/
def rk4Deltar (dr : α) (r : List α) (dfdr : SlopeSource α) (s : RKState α) :
    α :=
  if |s.stepstotal| +
        abs (rkSign dr *
          abs (adaptiveconstant / (dfdrval s.fstep s.rstep r dfdr / s.fstep)))
        > |dr| ∨
      s.stepstaken > 100 then
    rkSign dr * (|dr| - |s.stepstotal|)
  else
    rkSign dr *
      abs (adaptiveconstant / (dfdrval s.fstep s.rstep r dfdr / s.fstep))

/-- The value update of one iteration of `rk4`'s loop:
`ff = fstep + (pk1+pk4)/6 + (pk2+pk3)/3`.  Note that the four slope
evaluations `pk1 .. pk4` are scaled by the total travel distance `dr`
(exactly as in the source), not by the adaptive sub-step `deltar`; only the
evaluation positions `r2 = r1 + 0.5*deltar` and `r3 = r1 + deltar` use
`deltar`. -/
def rk4Advance (dr deltar : α) (r : List α) (dfdr : SlopeSource α)
    (s : RKState α) : α :=
  let r1 := s.rstep
  let r2 := r1 + deltar / 2
  let r3 := r1 + deltar
  let y1 := s.fstep
  let pk1 := dr * dfdrval y1 r1 r dfdr
  let y2 := s.fstep + pk1 / 2
  let pk2 := dr * dfdrval y2 r2 r dfdr
  let y3 := s.fstep + pk2 / 2
  let pk3 := dr * dfdrval y3 r2 r dfdr
  let y4 := s.fstep + pk3
  let pk4 := dr * dfdrval y4 r3 r dfdr
  s.fstep + (pk1 + pk4) / 6 + (pk2 + pk3) / 3

/-- One iteration of the `while` loop body of `rk4`. -/
def rk4Body (dr : α) (r : List α) (dfdr : SlopeSource α) (s : RKState α) :
    RKState α :=
  let deltar := rk4Deltar dr r dfdr s
  let newff := rk4Advance dr deltar r dfdr s
  ⟨s.rstep + deltar, newff, s.stepstotal + |deltar|, s.stepstaken + 1,
    some newff⟩

/-- The fuel-indexed `while` loop of `rk4`; `none` means the fuel ran out
while the loop condition still held (which `rk4Run_bounds` below shows never
happens from the initial state with fuel 103). -/
def rk4Go (dr : α) (r : List α) (dfdr : SlopeSource α) :
    ℕ → RKState α → Option (RKState α)
  | 0, s => if |s.stepstotal| < |dr| then none else some s
  | fuel + 1, s =>
    if |s.stepstotal| < |dr| then rk4Go dr r dfdr fuel (rk4Body dr r dfdr s)
    else some s

/-- `rk4` run to its final loop state. -/
def rk4Run (fi ri dr : α) (r : List α) (dfdr : SlopeSource α) :
    Option (RKState α) :=
  rk4Go dr r dfdr 103 ⟨ri, fi, 0, 0, none⟩

/-- `rk4(fi, ri, dr, r, dfdr)`: the returned `ff`.  The result is `none` when
the Python function would fail with an unbound local `ff` (loop body never
executed, i.e. `dr = 0`). -/
def rk4 (fi ri dr : α) (r : List α) (dfdr : SlopeSource α) : Option α :=
  (rk4Run fi ri dr r dfdr).bind RKState.ff

/-- One loop iteration of the integrator as claim C1 describes it: identical
to `rk4Body` except that the four slope evaluations are scaled by the
sub-step's own adaptively chosen step size `deltar` instead of by `dr`.
This definition follows the claim's words and is compared against the
source-derived `rk4Body`. -/
def rk4ClaimBody (dr : α) (r : List α) (dfdr : SlopeSource α) (s : RKState α) :
    RKState α :=
  let sign : α := if 0 < dr then 1 else if dr < 0 then -1 else 0
  let dlnf := dfdrval s.fstep s.rstep r dfdr / s.fstep
  let deltar0 := sign * |adaptiveconstant / dlnf|
  let deltar :=
    if |s.stepstotal| + |deltar0| > |dr| ∨ s.stepstaken > 100 then
      sign * (|dr| - |s.stepstotal|)
    else deltar0
  let r1 := s.rstep
  let r2 := r1 + deltar / 2
  let r3 := r1 + deltar
  let y1 := s.fstep
  let pk1 := deltar * dfdrval y1 r1 r dfdr
  let y2 := s.fstep + pk1 / 2
  let pk2 := deltar * dfdrval y2 r2 r dfdr
  let y3 := s.fstep + pk2 / 2
  let pk3 := deltar * dfdrval y3 r2 r dfdr
  let y4 := s.fstep + pk3
  let pk4 := deltar * dfdrval y4 r3 r dfdr
  let newff := s.fstep + (pk1 + pk4) / 6 + (pk2 + pk3) / 3
  ⟨s.rstep + deltar, newff, s.stepstotal + |deltar|, s.stepstaken + 1,
    some newff⟩

/-- The claim-described integrator loop (see `rk4ClaimBody`). -/
def rk4ClaimGo (dr : α) (r : List α) (dfdr : SlopeSource α) :
    ℕ → RKState α → Option (RKState α)
  | 0, s => if |s.stepstotal| < |dr| then none else some s
  | fuel + 1, s =>
    if |s.stepstotal| < |dr| then
      rk4ClaimGo dr r dfdr fuel (rk4ClaimBody dr r dfdr s)
    else some s

/-- The claim-described integrator (see `rk4ClaimBody`). -/
def rk4Claim (fi ri dr : α) (r : List α) (dfdr : SlopeSource α) : Option α :=
  ((rk4ClaimGo dr r dfdr 103 ⟨ri, fi, 0, 0, none⟩).bind RKState.ff)

/-- The running integral `F` computed at the top of `outflows`:
`F[0] = 1` and `F[k+1] = rk4(F[k], r[k], r[k+1]-r[k], r, dfdr=rhs)`.
Since `rhs` is passed as a plain array, `rk4` integrates the interpolated
`rhs` profile itself.  The `getD 0` models a value that the Python code
would only fail to produce by raising (duplicate grid points). -/
def Fprof (r : List α) (rhs : List α) : ℕ → α
  | 0 => 1
  | k + 1 =>
    (rk4 (Fprof r rhs k) (r.getD k 0) (r.getD (k + 1) 0 - r.getD k 0) r
      (.plain rhs)).getD 0

/-- The 4-point symmetric sign-change test of `outflows` at index `k` of a
single RHS profile:
`sign(rhs[k]) != sign(rhs[k+1]) and sign(rhs[k-1]) != sign(rhs[k+2])`. -/
def ownRoot (rhs : List α) (k : ℕ) : Bool :=
  decide (npSign (rhs.getD k 0) ≠ npSign (rhs.getD (k + 1) 0)) &&
  decide (npSign (rhs.getD (k - 1) 0) ≠ npSign (rhs.getD (k + 2) 0))

/-- The value of `rootflag[k]` after the models `0 .. j` of the batch have
been processed by the root-finding loop of `outflows`.  `rootflag` is
allocated once per `outflows` call and never cleared between models, so the
flags accumulate over all models processed so far; a mark is only ever set
for `k` in `range(1, nsteps-2)`. -/
def rootflagAfter (rhss : List (List α)) (n j k : ℕ) : Bool :=
  decide (1 ≤ k) && decide (k < n - 2) &&
  (List.range (j + 1)).any fun jp => ownRoot (rhss.getD jp []) k

/-- `roots` as computed for model `j` in `outflows`:
`np.where(rootflag > 0)` right after model `j`'s marking pass. -/
def rootsAt (rhss : List (List α)) (n j : ℕ) : List ℕ :=
  (List.range n).filter fun k => rootflagAfter rhss n j k

/-- First-minimum selection, as `numpy.argmin` resolves ties: fold keeping
the current best, replacing it only on a strictly smaller value. -/
def selectMinGo (f : ℕ → α) (b : ℕ) : List ℕ → ℕ
  | [] => b
  | c :: t => selectMinGo f (if f c < f b then c else b) t

/-- `icrit[j]` as computed by `outflows`: `-1` when model `j`'s root list is
empty, otherwise the first root minimising the running integral `F` of
model `j`. -/
def icrit (r : List α) (rhss : List (List α)) (n j : ℕ) : ℤ :=
  match rootsAt rhss n j with
  | [] => -1
  | c :: cs => (selectMinGo (Fprof r (rhss.getD j [])) c cs : ℕ)

/-- `badflag`-style warning of `outflows` for model `j`: model `j` found no
candidate root (the code prints `CAUTION: No critical point for model j`). -/
def noCritWarn (rhss : List (List α)) (n j : ℕ) : Bool :=
  decide (rootsAt rhss n j = [])

/-- Claim C3's description of the running integral, following the spec's
words: `F` is produced by integrating the formal equation `dF/dr = F * RHS`
with unit starting amplitude via the RK4 integrator from the start of the
grid, one grid interval at a time.  A classical fourth-order Runge–Kutta
step of size `h = r[k+1] - r[k]` is taken on each grid interval, with the
slope function `(rv, y) ↦ y * interp(rv, r, rhs)`. -/
def FclaimStep (r : List α) (rhs : List α) (rk h y : α) : α :=
  let k1 := h * (y * interp rk r rhs)
  let k2 := h * ((y + k1 / 2) * interp (rk + h / 2) r rhs)
  let k3 := h * ((y + k2 / 2) * interp (rk + h / 2) r rhs)
  let k4 := h * ((y + k3) * interp (rk + h) r rhs)
  y + (k1 + 2 * k2 + 2 * k3 + k4) / 6

/-- The running integral as claim C3 describes it (see `FclaimStep`). -/
def Fclaim (r : List α) (rhs : List α) : ℕ → α
  | 0 => 1
  | k + 1 =>
    FclaimStep r rhs (r.getD k 0) (r.getD (k + 1) 0 - r.getD k 0)
      (Fclaim r rhs k)

/-- `quickDeriv` for one model: slope from a centered difference at interior
points, one-sided differences at the two ends (the source computes the
index-0 formula first and overwrites index `steps-1` last). -/
def quickDeriv (f r : ℕ → α) (steps k : ℕ) : α :=
  if k = steps - 1 then
    (f (steps - 1) - f (steps - 2)) / (r (steps - 1) - r (steps - 2))
  else if k = 0 then (f 1 - f 0) / (r 1 - r 0)
  else (f (k + 1) - f (k - 1)) / (r (k + 1) - r (k - 1))

/-- The index nearest to the transition-region height:
`iTR = np.abs(zx - zTR).argmin()` (first minimum). -/
def nearestIdx (zx : List ℚ) (zTR : ℚ) : ℕ :=
  match List.range zx.length with
  | [] => 0
  | c :: cs => selectMinGo (fun k => |zx.getD k 0 - zTR|) c cs

/-- The mass-flux-conservation density row of `fullRHS`:
`rho[j,:] = (rho[j,iTR] * u[j,iTR] / B[j,iTR]) * (B[j,:] / u[j,:])`, where
`rho[j,iTR]` had just been set to the anchor value `rhoTR`.  The anchor
itself is `10 ** (-21.904 - 3.349*log10 zTR)` in the source — a
transcendental constant whose value is irrelevant to the conservation
identity — and is taken here as the parameter `rhoTR`, universally
quantified in the theorems below. -/
def massFluxRho (rhoTR : ℚ) (B u : ℕ → ℚ) (iTR : ℕ) : ℕ → ℚ :=
  fun k => rhoTR * u iTR / B iTR * (B k / u k)

/-- The density row of `fullRHS` with the anchor index computed from the
height grid `zx` and transition-region height `zTR` as in the source. -/
def fullRHSrho (rhoTR : ℚ) (zx : List ℚ) (zTR : ℚ) (B u : ℕ → ℚ) : ℕ → ℚ :=
  massFluxRho rhoTR B u (nearestIdx zx zTR)

/-- The guard of the per-model fixed-point loop in `main`:
`while ((changemodels[j] > 0.005) and (it < 300)) or (it < 10)`. -/
def loopGuard (change : ℚ) (it : ℕ) : Bool :=
  (decide (5 / 1000 < change) && decide (it < 300)) || decide (it < 10)

/-- The fixed-point loop of `main`, with the per-iteration convergence
metrics abstracted as an arbitrary sequence `c` (`c it` is the metric the
body computes when the counter is `it`).  Returns the final value of `it`. -/
def mainLoopGo (c : ℕ → ℚ) : ℕ → ℕ → ℚ → ℕ
  | 0, it, _ => it
  | fuel + 1, it, ch =>
    if loopGuard ch it then mainLoopGo c fuel (it + 1) (c it) else it

/-- The iteration count at which `main`'s per-model loop exits, for metric
sequence `c`; the loop starts at `it = 0` with `changemodels[j] = 1`. -/
def exitIt (c : ℕ → ℚ) : ℕ := mainLoopGo c 301 0 1

/-- The metric value tested by the loop guard at counter value `it`. -/
def chSeq (c : ℕ → ℚ) : ℕ → ℚ
  | 0 => 1
  | it + 1 => c it

/-- The outputs of the per-model body of `critSlope`. -/
structure CritSlopeOut where
  rC : ℝ
  uC : ℝ
  dUdrc : ℝ
  warned : Bool

/-- Per-model body of `critSlope`: at a non-sentinel index, the L'Hôpital
slope `0.5*(duCdr + sqrt(duCdr^2 + 2*dNdr))` from the `quickDeriv`
derivatives of `rhs` and `ucr`, with a non-positive radicand replaced by 0
(the source then prints a warning, recorded in `warned`). -/
noncomputable def critSlope (r rhs ucr : ℕ → ℝ) (steps : ℕ) (idx : ℤ) :
    CritSlopeOut :=
  if idx = -1 then ⟨0, 0, 0, false⟩
  else if quickDeriv ucr r steps idx.toNat ^ 2 +
      2 * quickDeriv rhs r steps idx.toNat ≤ 0 then
    ⟨r idx.toNat, ucr idx.toNat,
      1 / 2 * (quickDeriv ucr r steps idx.toNat + Real.sqrt 0), true⟩
  else
    ⟨r idx.toNat, ucr idx.toNat,
      1 / 2 * (quickDeriv ucr r steps idx.toNat +
        Real.sqrt (quickDeriv ucr r steps idx.toNat ^ 2 +
          2 * quickDeriv rhs r steps idx.toNat)), false⟩

/-- The raw RK4 result of one downward shooting step of `slope2curve` from
grid index `i` (carrying value `uprev`) to index `i-1`. -/
noncomputable def shootDownRaw (r ucrj rhsj : List ℝ) (uprev : ℝ) (i : ℕ) :
    ℝ :=
  (rk4 uprev (r.getD i 0) (r.getD (i - 1) 0 - r.getD i 0) r
    (.critOde ucrj rhsj)).getD 0

/-- The raw RK4 result of one upward shooting step of `slope2curve` from
grid index `i` (carrying value `uprev`) to index `i+1`. -/
noncomputable def shootUpRaw (r ucrj rhsj : List ℝ) (uprev : ℝ) (i : ℕ) : ℝ :=
  (rk4 uprev (r.getD i 0) (r.getD (i + 1) 0 - r.getD i 0) r
    (.critOde ucrj rhsj)).getD 0

/-- The downward shooting pass of `slope2curve`: `shootDownSeq ... m` is
`u[iC-1-m]`.  `m = 0` is the seeded value
`u[iC-1] = u[iC] + (r[iC-1]-r[iC])*dUdrpt[0]`; each further step integrates
one grid interval downward and substitutes the previous value when the raw
result is negative (the source also prints a warning then). -/
noncomputable def shootDownSeq (r ucrj rhsj : List ℝ) (iC : ℕ)
    (rpt upt dUdr0 : ℝ) : ℕ → ℝ
  | 0 =>
    upt + (r.getD iC 0 - rpt) * dUdr0 +
      (r.getD (iC - 1) 0 - r.getD iC 0) * dUdr0
  | m + 1 =>
    let prev := shootDownSeq r ucrj rhsj iC rpt upt dUdr0 m
    let raw := shootDownRaw r ucrj rhsj prev (iC - 1 - m)
    if raw < 0 then prev else raw

/-- The upward shooting pass of `slope2curve`: `shootUpSeq ... m` is
`u[iC+2+m]`.  `m = 0` is the seeded value
`u[iC+2] = u[iC+1] + (r[iC+2]-r[iC+1])*dUdrpt[1]`. -/
noncomputable def shootUpSeq (r ucrj rhsj : List ℝ) (iC : ℕ)
    (rpt upt dUdr1 : ℝ) : ℕ → ℝ
  | 0 =>
    upt + (r.getD (iC + 1) 0 - rpt) * dUdr1 +
      (r.getD (iC + 2) 0 - r.getD (iC + 1) 0) * dUdr1
  | m + 1 =>
    let prev := shootUpSeq r ucrj rhsj iC rpt upt dUdr1 m
    let raw := shootUpRaw r ucrj rhsj prev (iC + 2 + m)
    if raw < 0 then prev else raw

/-- `slope2curve(r, iC, rpt, upt, dUdrpt, ucrj, rhsj)` as a function from
grid index to outflow speed: the four seeded points around the critical
bracket, the downward pass below them and the upward pass above them.
Indices at or beyond `len(r)` do not correspond to entries of the Python
array and are constrained by hypotheses where it matters. -/
noncomputable def slope2curve (r : List ℝ) (iC : ℕ) (rpt upt dUdr0 dUdr1 : ℝ)
    (ucrj rhsj : List ℝ) : ℕ → ℝ :=
  fun k =>
    if k + 1 ≤ iC then shootDownSeq r ucrj rhsj iC rpt upt dUdr0 (iC - 1 - k)
    else if k = iC then upt + (r.getD iC 0 - rpt) * dUdr0
    else if k = iC + 1 then upt + (r.getD (iC + 1) 0 - rpt) * dUdr1
    else shootUpSeq r ucrj rhsj iC rpt upt dUdr1 (k - (iC + 2))

/-- Whether the downward pass of `slope2curve` prints the negative-velocity
warning at the step that produces `u[i-1]` (given the carried value `uprev`
at index `i`). -/
noncomputable def downWarned (r ucrj rhsj : List ℝ) (uprev : ℝ) (i : ℕ) :
    Bool :=
  decide (shootDownRaw r ucrj rhsj uprev i < 0)

/-- Whether the upward pass of `slope2curve` prints the negative-velocity
warning at the step that produces `u[i+1]`. -/
noncomputable def upWarned (r ucrj rhsj : List ℝ) (uprev : ℝ) (i : ℕ) : Bool :=
  decide (shootUpRaw r ucrj rhsj uprev i < 0)

/-- The `critSlope` output of `outflows` for model `j` at the plus side of
the critical bracket (`indexcrit = icrit + 1`). -/
noncomputable def outflowsCplus (r : List ℝ) (rhss ucrs : List (List ℝ))
    (n j : ℕ) : CritSlopeOut :=
  critSlope (fun k => r.getD k 0) (fun k => (rhss.getD j []).getD k 0)
    (fun k => (ucrs.getD j []).getD k 0) n (icrit r rhss n j + 1)

/-- The `critSlope` output of `outflows` for model `j` at the minus side of
the critical bracket (`indexcrit = icrit`). -/
noncomputable def outflowsCminus (r : List ℝ) (rhss ucrs : List (List ℝ))
    (n j : ℕ) : CritSlopeOut :=
  critSlope (fun k => r.getD k 0) (fun k => (rhss.getD j []).getD k 0)
    (fun k => (ucrs.getD j []).getD k 0) n (icrit r rhss n j)

/-- The velocity profile produced by `outflows` for model `j`: the `u` row
stays at its zero initialisation when `icrit[j]` is the sentinel `-1`, and
is otherwise produced by `slope2curve` from the critical point data
assembled from the two `critSlope` calls: radius and speed are the averages
of the two sides, the two one-sided slopes are passed separately. -/
noncomputable def outflowsU (r : List ℝ) (rhss ucrs : List (List ℝ))
    (n j : ℕ) : ℕ → ℝ :=
  if icrit r rhss n j ≠ -1 then
    slope2curve r (icrit r rhss n j).toNat
      (((outflowsCminus r rhss ucrs n j).rC +
        (outflowsCplus r rhss ucrs n j).rC) / 2)
      (((outflowsCminus r rhss ucrs n j).uC +
        (outflowsCplus r rhss ucrs n j).uC) / 2)
      (outflowsCminus r rhss ucrs n j).dUdrc
      (outflowsCplus r rhss ucrs n j).dUdrc
      (ucrs.getD j []) (rhss.getD j [])
  else fun _ => 0

/-- A two-point grid on which a constant derivative profile is interpolated;
used to exercise `rk4` on the simplest possible slope source. -/
def flatGrid : List ℚ := [0, 1000000]

/-- A constant derivative profile of value 1 on `flatGrid`. -/
def flatSlope : List ℚ := [1, 1]

/-- Grid radii for the two-model candidate-leak example. -/
def leakR : List ℚ := [1, 2, 3, 4, 5]

/-- RHS profiles for the candidate-leak example: model 0 has a clean sign
change between indices 1 and 2; model 1 is everywhere positive and has no
sign change at all. -/
def leakRhss : List (List ℚ) := [[1, 1, -1, -1, -1], [1, 1, 1, 1, 1]]

/-- Grid radii for the critical-point-selection example: a short interval
`[1, 1.1]` carries the transition of the RHS from its small positive plateau
to its strongly negative plateau. -/
def selR : List ℚ := [0, 1, 11 / 10, 21 / 10, 31 / 10, 41 / 10, 51 / 10]

/-- RHS profile for the critical-point-selection example: two sign changes,
producing candidate indices 1 and 3. -/
def selRhs : List ℚ :=
  [1 / 20, 1 / 20, -5, -5, 1 / 20, 1 / 20, 1 / 20]

/-- The single-model batch for the critical-point-selection example. -/
def selRhss : List (List ℚ) := [selRhs]

/-- An integer grid for the sub-step-count example. -/
def zigGrid : List ℚ := (List.range 207).map fun i => (i : ℚ)

/-- A zigzag derivative profile on `zigGrid` with period 4 (values
1, 0, -1, 0, …): starting from value 20, every adaptive sub-step of `rk4`
has length exactly 2 and leaves the value unchanged, so the integration over
a travel distance of 206 keeps refining until the step cap intervenes. -/
def zigSlope : List ℚ :=
  (List.range 207).map fun i =>
    if i % 4 = 0 then 1 else if i % 4 = 2 then -1 else 0

/-- The loop invariant of `rk4` maintained by `rk4Body`: the accumulated
absolute distance is nonnegative, never exceeds the requested distance, is
exactly the requested distance once 102 sub-steps have been taken, and
bounds the displacement of the current position from the start. -/
def RKInv (ri dr : α) (s : RKState α) : Prop :=
  0 ≤ s.stepstotal ∧ s.stepstotal ≤ |dr| ∧
    (102 ≤ s.stepstaken → s.stepstotal = |dr|) ∧ |s.rstep - ri| ≤ s.stepstotal

/-- Grid radii (over `ℝ`) for the sentinel-model example. -/
def warnR : List ℝ := [1, 2, 3, 4, 5]

/-- RHS profiles for the sentinel-model example: model 0 has no sign change
anywhere (no candidate critical point), model 1 has a clean one. -/
def warnRhss : List (List ℝ) := [[1, 1, 1, 1, 1], [1, 1, -1, -1, -1]]

/-- Critical-speed profiles for the sentinel-model example. -/
def warnUcrs : List (List ℝ) := [[1, 1, 1, 1, 1], [1, 1, 1, 1, 1]]

theorem abs_rkSign (dr : α) (hdr : dr ≠ 0) : |rkSign dr| = 1 := by
  rcases lt_trichotomy dr 0 with h | h | h
  · simp [rkSign, not_lt_of_lt h, h]
  · exact absurd h hdr
  · simp [rkSign, h]

theorem rk4Deltar_total (dr : α) (r : List α) (dfdr : SlopeSource α)
    (s : RKState α) (hdr : dr ≠ 0) (h0 : 0 ≤ s.stepstotal)
    (hle : s.stepstotal ≤ |dr|) :
    s.stepstotal + |rk4Deltar dr r dfdr s| ≤ |dr| ∧
      (100 < s.stepstaken → s.stepstotal + |rk4Deltar dr r dfdr s| = |dr|) := by
  rw [rk4Deltar, abs_of_nonneg h0]
  split_ifs with hc
  · rw [abs_mul, abs_rkSign dr hdr, one_mul,
      abs_of_nonneg (sub_nonneg.mpr hle)]
    constructor
    · linarith
    · intro _; linarith
  · push_neg at hc
    refine ⟨hc.1, fun h => absurd h ?_⟩
    have := hc.2
    omega

theorem rk4Body_inv (dr : α) (r : List α) (dfdr : SlopeSource α)
    (s : RKState α) (ri : α) (hdr : dr ≠ 0) (hI : RKInv ri dr s) :
    RKInv ri dr (rk4Body dr r dfdr s) := by
  obtain ⟨h0, hle, hcap, hpos⟩ := hI
  obtain ⟨hd1, hd2⟩ := rk4Deltar_total dr r dfdr s hdr h0 hle
  refine ⟨add_nonneg h0 (abs_nonneg _), hd1, ?_, ?_⟩
  · intro h
    have htk : (rk4Body dr r dfdr s).stepstaken = s.stepstaken + 1 := rfl
    rw [htk] at h
    exact hd2 (by omega)
  · show |s.rstep + rk4Deltar dr r dfdr s - ri| ≤ _
    calc |s.rstep + rk4Deltar dr r dfdr s - ri|
        = |s.rstep - ri + rk4Deltar dr r dfdr s| := by ring_nf
      _ ≤ |s.rstep - ri| + |rk4Deltar dr r dfdr s| := abs_add _ _
      _ ≤ s.stepstotal + |rk4Deltar dr r dfdr s| := by linarith

theorem rk4Go_sound (dr : α) (r : List α) (dfdr : SlopeSource α) (ri : α)
    (hdr : dr ≠ 0) :
    ∀ (fuel : ℕ) (s : RKState α), RKInv ri dr s → 103 ≤ fuel + s.stepstaken →
      ∃ t, rk4Go dr r dfdr fuel s = some t ∧ RKInv ri dr t ∧
        t.stepstaken ≤ max s.stepstaken 102 ∧
        ((s.ff.isSome = true ∨ |s.stepstotal| < |dr|) → t.ff.isSome = true) := by
  intro fuel
  induction fuel with
  | zero =>
    intro s hI hfuel
    have htot : s.stepstotal = |dr| := hI.2.2.1 (by omega)
    have hnlt : ¬ |s.stepstotal| < |dr| := by
      rw [abs_of_nonneg hI.1, htot]; exact lt_irrefl _
    refine ⟨s, ?_, hI, le_max_left _ _, ?_⟩
    · simp [rk4Go, hnlt]
    · rintro (h | h)
      · exact h
      · exact absurd h hnlt
  | succ fuel ih =>
    intro s hI hfuel
    by_cases hc : |s.stepstotal| < |dr|
    · have hrec : rk4Go dr r dfdr (fuel + 1) s =
          rk4Go dr r dfdr fuel (rk4Body dr r dfdr s) := by
        simp [rk4Go, hc]
      have hIb := rk4Body_inv dr r dfdr s ri hdr hI
      have htk : (rk4Body dr r dfdr s).stepstaken = s.stepstaken + 1 := rfl
      obtain ⟨t, ht, hIt, htkle, hffs⟩ :=
        ih (rk4Body dr r dfdr s) hIb (by omega)
      have hs101 : s.stepstaken ≤ 101 := by
        by_contra hgt
        have : s.stepstotal = |dr| := hI.2.2.1 (by omega)
        rw [abs_of_nonneg hI.1, this] at hc
        exact lt_irrefl _ hc
      refine ⟨t, hrec.trans ht, hIt, ?_, ?_⟩
      · calc t.stepstaken ≤ max (rk4Body dr r dfdr s).stepstaken 102 := htkle
          _ = 102 := by rw [htk]; omega
          _ ≤ max s.stepstaken 102 := le_max_right _ _
      · intro _
        exact hffs (Or.inl rfl)
    · refine ⟨s, by simp [rk4Go, hc], hI, le_max_left _ _, ?_⟩
      rintro (h | h)
      · exact h
      · exact absurd h hc

theorem rk4Run_sound (fi ri dr : α) (r : List α) (dfdr : SlopeSource α)
    (hdr : dr ≠ 0) :
    ∃ t, rk4Run fi ri dr r dfdr = some t ∧ RKInv ri dr t ∧
      t.stepstaken ≤ 102 ∧ t.ff.isSome = true := by
  have hI : RKInv ri dr (⟨ri, fi, 0, 0, none⟩ : RKState α) := by
    refine ⟨le_refl _, abs_nonneg _, ?_, ?_⟩
    · intro h
      simp at h
    · show |ri - ri| ≤ (0 : α)
      simp
  obtain ⟨t, ht, hIt, htk, hff⟩ :=
    rk4Go_sound dr r dfdr ri hdr 103 ⟨ri, fi, 0, 0, none⟩ hI (by simp)
  refine ⟨t, ht, hIt, by simpa using htk, hff (Or.inr ?_)⟩
  show |(0 : α)| < |dr|
  simpa using hdr

theorem rk4_isSome (fi ri dr : α) (r : List α) (dfdr : SlopeSource α)
    (hdr : dr ≠ 0) : (rk4 fi ri dr r dfdr).isSome = true := by
  obtain ⟨t, ht, _, _, hff⟩ := rk4Run_sound fi ri dr r dfdr hdr
  rw [rk4, ht]
  simpa using hff

theorem selectMinGo_sound (f : ℕ → α) :
    ∀ (t : List ℕ) (b : ℕ), (b :: t).Pairwise (· < ·) →
      selectMinGo f b t ∈ b :: t ∧
        (∀ c ∈ b :: t, f (selectMinGo f b t) ≤ f c) ∧
        ∀ c ∈ b :: t, f c ≤ f (selectMinGo f b t) → selectMinGo f b t ≤ c := by
  intro t
  induction t with
  | nil =>
    intro b _
    refine ⟨by simp [selectMinGo], ?_, ?_⟩
    · intro e he
      rw [List.mem_singleton.mp he]
      exact le_refl _
    · intro e he _
      rw [List.mem_singleton.mp he]
      exact le_refl _
  | cons c t ih =>
    intro b hsorted
    have hbc : b < c := (List.pairwise_cons.mp hsorted).1 c (by simp)
    have hct : (c :: t).Pairwise (· < ·) := (List.pairwise_cons.mp hsorted).2
    have hstep : selectMinGo f b (c :: t) =
        selectMinGo f (if f c < f b then c else b) t := rfl
    by_cases hfc : f c < f b
    · rw [hstep, if_pos hfc]
      obtain ⟨hmem, hmin, hleast⟩ := ih c hct
      refine ⟨List.mem_cons_of_mem b hmem, ?_, ?_⟩
      · intro e he
        rcases List.mem_cons.mp he with he | he
        · rw [he]
          exact le_of_lt (lt_of_le_of_lt (hmin c (by simp)) hfc)
        · exact hmin e he
      · intro e he hfe
        rcases List.mem_cons.mp he with he | he
        · rw [he] at hfe
          exact absurd (lt_of_le_of_lt (le_trans hfe (hmin c (by simp))) hfc)
            (lt_irrefl _)
        · exact hleast e he hfe
    · rw [hstep, if_neg hfc]
      push_neg at hfc
      have hbt : (b :: t).Pairwise (· < ·) := by
        rw [List.pairwise_cons] at hsorted ⊢
        exact ⟨fun e he => hsorted.1 e (by simp [he]),
          (List.pairwise_cons.mp hsorted.2).2⟩
      obtain ⟨hmem, hmin, hleast⟩ := ih b hbt
      have hmemc : selectMinGo f b t ∈ b :: c :: t := by
        rcases List.mem_cons.mp hmem with h | h
        · simp [h]
        · simp [h]
      refine ⟨hmemc, ?_, ?_⟩
      · intro e he
        rcases List.mem_cons.mp he with he | he
        · rw [he]
          exact hmin b (by simp)
        · rcases List.mem_cons.mp he with he | he
          · rw [he]
            exact le_trans (hmin b (by simp)) hfc
          · exact hmin e (by simp [he])
      · intro e he hfe
        rcases List.mem_cons.mp he with he | he
        · rw [he]
          rw [he] at hfe
          exact hleast b (by simp) hfe
        · rcases List.mem_cons.mp he with he | he
          · rw [he]
            rw [he] at hfe
            have hxb : selectMinGo f b t ≤ b :=
              hleast b (by simp) (le_trans hfc hfe)
            omega
          · exact hleast e (by simp [he]) hfe

theorem rootsAt_sorted (rhss : List (List α)) (n j : ℕ) :
    (rootsAt rhss n j).Pairwise (· < ·) :=
  (List.pairwise_lt_range n).filter _

theorem mainLoopGo_sound (c : ℕ → ℚ) :
    ∀ (fuel it : ℕ), 301 ≤ fuel + it →
      it ≤ mainLoopGo c fuel it (chSeq c it) ∧
        mainLoopGo c fuel it (chSeq c it) ≤ max it 300 ∧
        loopGuard (chSeq c (mainLoopGo c fuel it (chSeq c it)))
          (mainLoopGo c fuel it (chSeq c it)) = false ∧
        ∀ k, it ≤ k → k < mainLoopGo c fuel it (chSeq c it) →
          loopGuard (chSeq c k) k = true := by
  intro fuel
  induction fuel with
  | zero =>
    intro it hit
    have hguard : loopGuard (chSeq c it) it = false := by
      have h1 : decide (it < 300) = false := decide_eq_false (by omega)
      have h2 : decide (it < 10) = false := decide_eq_false (by omega)
      simp [loopGuard, h1, h2]
    refine ⟨le_refl _, le_max_left _ _, hguard, ?_⟩
    intro k h1 h2
    exact absurd (lt_of_le_of_lt h1 h2) (lt_irrefl it)
  | succ fuel ih =>
    intro it hit
    by_cases hg : loopGuard (chSeq c it) it = true
    · have hrec : mainLoopGo c (fuel + 1) it (chSeq c it) =
          mainLoopGo c fuel (it + 1) (chSeq c (it + 1)) := by
        show (if loopGuard (chSeq c it) it then
            mainLoopGo c fuel (it + 1) (c it) else it) =
          mainLoopGo c fuel (it + 1) (chSeq c (it + 1))
        rw [if_pos hg]
        rfl
      have hlt300 : it < 300 := by
        have hg2 : 5 / 1000 < chSeq c it ∧ it < 300 ∨ it < 10 := by
          simpa [loopGuard] using hg
        rcases hg2 with ⟨_, h⟩ | h
        · exact h
        · omega
      obtain ⟨h1, h2, h3, h4⟩ := ih (it + 1) (by omega)
      rw [hrec]
      refine ⟨by omega, ?_, h3, ?_⟩
      · calc mainLoopGo c fuel (it + 1) (chSeq c (it + 1)) ≤ max (it + 1) 300 :=
            h2
          _ ≤ max it 300 := by omega
      · intro k hk1 hk2
        rcases Nat.eq_or_lt_of_le hk1 with hk | hk
        · rw [← hk]
          exact hg
        · exact h4 k hk hk2
    · have hgf : loopGuard (chSeq c it) it = false := by
        cases h : loopGuard (chSeq c it) it
        · rfl
        · exact absurd h hg
      have hrec : mainLoopGo c (fuel + 1) it (chSeq c it) = it := by
        show (if loopGuard (chSeq c it) it then
            mainLoopGo c fuel (it + 1) (c it) else it) = it
        rw [if_neg (by simp [hgf])]
      rw [hrec]
      refine ⟨le_refl _, le_max_left _ _, hgf, ?_⟩
      intro k h1 h2
      exact absurd (lt_of_le_of_lt h1 h2) (lt_irrefl it)

set_option maxRecDepth 10000 in
/-- Claim C1: each sub-step of `rk4` was claimed to advance the value by the
RK4 combination of four slopes each scaled by the sub-step's own adaptive
step `deltar`.  The code scales the slopes by the total travel distance `dr`
instead: integrating the constant derivative profile 1 from value 1 over
distance 1, the code takes four sub-steps and returns 5, while the
claim-described integrator (`rk4Claim`, `deltar`-scaled) returns the exact
value 2. -/
theorem claim_C1_substep_scaling :
    rk4 (1 : ℚ) 0 1 flatGrid (.plain flatSlope) = some 5 ∧
      rk4Claim (1 : ℚ) 0 1 flatGrid (.plain flatSlope) = some 2 := by
  constructor
  · with_unfolding_all rfl
  · with_unfolding_all rfl

set_option maxRecDepth 10000 in
/-- Claim C2: an index was claimed to be a candidate critical point for
model `j` iff model `j`'s own RHS satisfies the 4-point sign-change test.
In the code `rootflag` is never reset between models, so model 1 of
`leakRhss` — whose own RHS is everywhere positive and passes the test
nowhere — still has index 1 flagged (inherited from model 0) and receives
critical index 1 instead of the no-critical-point sentinel. -/
theorem claim_C2_rootflag_leak :
    ownRoot (leakRhss.getD 1 []) 1 = false ∧
      rootflagAfter (α := ℚ) leakRhss 5 1 1 = true ∧
      rootsAt (α := ℚ) leakRhss 5 1 = [1] ∧
      icrit leakR leakRhss 5 1 = 1 := by
  refine ⟨?_, ?_, ?_, ?_⟩
  · with_unfolding_all rfl
  · with_unfolding_all rfl
  · with_unfolding_all rfl
  · with_unfolding_all rfl

set_option maxRecDepth 40000 in
/-- Claim C3 counterexample: on the single-model batch `selRhss` over grid
`selR` the candidates are indices 1 and 3 and `outflows` selects index 3,
but the running integral described by the claim (`Fclaim`, integrating
`dF/dr = F*RHS` by RK4 one grid interval at a time) is strictly smaller at
candidate 1 than at candidate 3, so the selected index does not minimise
the claim's integral. -/
theorem claim_C3_counterexample :
    rootsAt (α := ℚ) selRhss 7 0 = [1, 3] ∧
      icrit selR selRhss 7 0 = 3 ∧
      Fclaim selR selRhs 1 < Fclaim selR selRhs 3 := by
  refine ⟨?_, ?_, ?_⟩
  · with_unfolding_all rfl
  · with_unfolding_all rfl
  · with_unfolding_all rfl

/-- Claim C3 (amended): when a model has one or more candidate critical
indices, `outflows` selects the first candidate index at which the running
integral `F` — obtained by integrating `dF/dr = RHS` with unit starting
value via the RK4 integrator, one grid interval at a time — attains its
minimum among the candidates. -/
theorem claim_C3_running_integral_argmin (r : List α) (rhss : List (List α))
    (n j : ℕ) (hne : rootsAt rhss n j ≠ []) :
    0 ≤ icrit r rhss n j ∧
      (icrit r rhss n j).toNat ∈ rootsAt rhss n j ∧
      (∀ c ∈ rootsAt rhss n j,
        Fprof r (rhss.getD j []) (icrit r rhss n j).toNat ≤
          Fprof r (rhss.getD j []) c) ∧
      ∀ c ∈ rootsAt rhss n j,
        Fprof r (rhss.getD j []) c ≤
            Fprof r (rhss.getD j []) (icrit r rhss n j).toNat →
          (icrit r rhss n j).toNat ≤ c := by
  cases hr : rootsAt rhss n j with
  | nil => exact absurd hr hne
  | cons b t =>
    have hsorted : (b :: t).Pairwise (· < ·) := hr ▸ rootsAt_sorted rhss n j
    obtain ⟨hmem, hmin, hleast⟩ :=
      selectMinGo_sound (Fprof r (rhss.getD j [])) t b hsorted
    have hic : icrit r rhss n j =
        ((selectMinGo (Fprof r (rhss.getD j [])) b t : ℕ) : ℤ) := by
      unfold icrit
      rw [hr]
    rw [hic]
    refine ⟨Int.natCast_nonneg _, ?_, ?_, ?_⟩
    · simpa using hmem
    · simpa using hmin
    · simpa using hleast

set_option maxRecDepth 40000 in
/-- Witness for claim C3's amended theorem at the concrete selection
example. -/
theorem claim_C3_running_integral_argmin_witness :
    rootsAt (α := ℚ) selRhss 7 0 ≠ [] ∧ 0 ≤ icrit selR selRhss 7 0 := by
  have h : rootsAt (α := ℚ) selRhss 7 0 = [1, 3] := by with_unfolding_all rfl
  refine ⟨by rw [h]; simp, ?_⟩
  exact (claim_C3_running_integral_argmin selR selRhss 7 0 (by rw [h]; simp)).1

/-- Claim C4: after the density row of `fullRHS` is computed by mass-flux
conservation, `rho(r)*u(r)/B(r)` is the same at every grid index and equals
the anchored value `rhoTR*u_TR/B_TR` taken at the grid index nearest the
transition-region height; in particular the density at the anchor index is
the anchor value itself. -/
theorem claim_C4_mass_flux_const (rhoTR : ℚ) (zx : List ℚ) (zTR : ℚ)
    (B u : ℕ → ℚ) (hB : ∀ k, B k ≠ 0) (hu : ∀ k, u k ≠ 0) :
    (∀ k, fullRHSrho rhoTR zx zTR B u k * u k / B k =
      rhoTR * u (nearestIdx zx zTR) / B (nearestIdx zx zTR)) ∧
      fullRHSrho rhoTR zx zTR B u (nearestIdx zx zTR) = rhoTR := by
  constructor
  · intro k
    have h1 := hB k
    have h2 := hu k
    have h3 := hB (nearestIdx zx zTR)
    have h4 := hu (nearestIdx zx zTR)
    unfold fullRHSrho massFluxRho
    field_simp
    ring
  · have h3 := hB (nearestIdx zx zTR)
    have h4 := hu (nearestIdx zx zTR)
    unfold fullRHSrho massFluxRho
    field_simp

/-- Witness for claim C4 at a concrete model. -/
theorem claim_C4_mass_flux_const_witness :
    fullRHSrho 7 [0, 1] (1 / 2) (fun _ => 3) (fun _ => 2) 5 * 2 / 3 =
      7 * 2 / 3 :=
  (claim_C4_mass_flux_const 7 [0, 1] (1 / 2) (fun _ => 3) (fun _ => 2)
    (fun _ => by norm_num) (fun _ => by norm_num)).1 5

/-- Claim C5: for every model (every sequence `c` of per-iteration
convergence metrics) the fixed-point loop of `main` terminates; it never
exits before completing 10 iterations, exits with the metric at or below
0.005 or with the iteration count at the cap 300, and runs exactly while the
guard holds (before the exit iteration the floor is unmet or the metric is
above threshold below the cap). -/
theorem claim_C5_driver_exit (c : ℕ → ℚ) :
    10 ≤ exitIt c ∧ exitIt c ≤ 300 ∧
      (chSeq c (exitIt c) ≤ 5 / 1000 ∨ exitIt c = 300) ∧
      ∀ k < exitIt c, k < 10 ∨ (5 / 1000 < chSeq c k ∧ k < 300) := by
  obtain ⟨h1, h2, h3, h4⟩ := mainLoopGo_sound c 301 0 (by omega)
  have he : exitIt c = mainLoopGo c 301 0 (chSeq c 0) := rfl
  rw [he]
  have h3p : ¬ ((5 / 1000 < chSeq c (mainLoopGo c 301 0 (chSeq c 0)) ∧
      mainLoopGo c 301 0 (chSeq c 0) < 300) ∨
      mainLoopGo c 301 0 (chSeq c 0) < 10) := by
    intro hcon
    have : loopGuard (chSeq c (mainLoopGo c 301 0 (chSeq c 0)))
        (mainLoopGo c 301 0 (chSeq c 0)) = true := by
      simp [loopGuard]
      tauto
    rw [h3] at this
    exact absurd this (by simp)
  push_neg at h3p
  have hle300 : mainLoopGo c 301 0 (chSeq c 0) ≤ 300 := by
    simpa using h2
  refine ⟨h3p.2, hle300, ?_, ?_⟩
  · by_cases hcap : mainLoopGo c 301 0 (chSeq c 0) = 300
    · exact Or.inr hcap
    · refine Or.inl (not_lt.mp fun hgt => hcap ?_)
      have h300 := h3p.1 hgt
      omega
  · intro k hk
    have := h4 k (Nat.zero_le k) hk
    have hg : (5 / 1000 < chSeq c k ∧ k < 300) ∨ k < 10 := by
      simpa [loopGuard] using this
    tauto

/-- Claim C6 (amended): for nonzero travel distance `dr` the `rk4` loop
terminates, the accumulated stepped distance never exceeds `|dr|` and the
final position is within `|dr|` of the start, and the number of sub-steps
is bounded by 102 (up to 101 adaptive sub-steps can occur before the
`stepstaken > 100` clamp forces the final one). -/
theorem claim_C6_substep_bounds (fi ri dr : α) (r : List α)
    (dfdr : SlopeSource α) (hdr : dr ≠ 0) :
    (rk4Run fi ri dr r dfdr).isSome = true ∧
      ∀ t, rk4Run fi ri dr r dfdr = some t →
        t.stepstotal ≤ |dr| ∧ |t.rstep - ri| ≤ |dr| ∧ t.stepstaken ≤ 102 := by
  obtain ⟨t, ht, hIt, htk, _⟩ := rk4Run_sound fi ri dr r dfdr hdr
  refine ⟨by rw [ht]; rfl, ?_⟩
  intro t2 ht2
  rw [ht] at ht2
  obtain rfl : t = t2 := by injection ht2
  exact ⟨hIt.2.1, le_trans hIt.2.2.2 hIt.2.1, htk⟩

/-- Witness for claim C6's amended theorem at a concrete integration. -/
theorem claim_C6_substep_bounds_witness :
    (rk4Run (1 : ℚ) 0 1 flatGrid (.plain flatSlope)).isSome = true :=
  (claim_C6_substep_bounds 1 0 1 flatGrid (.plain flatSlope)
    (by norm_num)).1

set_option maxRecDepth 1000000 in
set_option maxHeartbeats 4000000 in
/-- Claim C6 counterexample: `rk4` integrating the zigzag profile
`zigSlope` from value 20 over distance 206 takes 102 sub-steps, exceeding
the claimed bound of 100. -/
theorem claim_C6_counterexample :
    (rk4Run (20 : ℚ) 0 206 zigGrid (.plain zigSlope)).map RKState.stepstaken =
      some 102 := by
  with_unfolding_all rfl

/-- Claim C10: calling `rk4` with zero travel distance skips the loop, so
the Python local `ff` is never assigned and no value is returned (the call
fails); for any nonzero `dr` — in particular for the distance between two
strictly increasing grid radii, the form every caller uses — the loop body
runs and a value is produced. -/
theorem claim_C10_zero_dr (fi ri dr : α) (r : List α) (dfdr : SlopeSource α) :
    rk4 fi ri 0 r dfdr = none ∧
      (dr ≠ 0 → (rk4 fi ri dr r dfdr).isSome = true) ∧
      ∀ a b : α, a < b → (rk4 fi a (b - a) r dfdr).isSome = true := by
  refine ⟨?_, fun h => rk4_isSome fi ri dr r dfdr h, fun a b hab =>
    rk4_isSome fi a (b - a) r dfdr (sub_ne_zero.mpr (ne_of_gt hab))⟩
  simp [rk4, rk4Run, rk4Go]

/-- Witness for claim C10 at a concrete nonzero distance and a concrete
increasing pair of radii. -/
theorem claim_C10_zero_dr_witness :
    (rk4 (1 : ℚ) 0 1 flatGrid (.plain flatSlope)).isSome = true ∧
      (rk4 (1 : ℚ) 2 (3 - 2) flatGrid (.plain flatSlope)).isSome = true :=
  ⟨(claim_C10_zero_dr 1 0 1 flatGrid (.plain flatSlope)).2.1 (by norm_num),
    (claim_C10_zero_dr 1 0 1 flatGrid (.plain flatSlope)).2.2 2 3
      (by norm_num)⟩

/-- Claim C7: at an interior, non-sentinel bracketing index `k`, `critSlope`
returns the slope `0.5*(duCdr + sqrt((duCdr)^2 + 2*dNdr))` built from the
centered-difference derivatives of the critical-speed and RHS profiles; a
negative radicand is replaced by zero (captured by the `max` with 0) and the
warning flag is set, and a result is still produced (`rC`, `uC` are the
radius and critical speed at `k`). -/
theorem claim_C7_crit_slope (r rhs ucr : ℕ → ℝ) (steps k : ℕ)
    (hk1 : 1 ≤ k) (hk2 : k < steps - 1) :
    (critSlope r rhs ucr steps (k : ℤ)).dUdrc =
        1 / 2 * ((ucr (k + 1) - ucr (k - 1)) / (r (k + 1) - r (k - 1)) +
          Real.sqrt (max
            (((ucr (k + 1) - ucr (k - 1)) / (r (k + 1) - r (k - 1))) ^ 2 +
              2 * ((rhs (k + 1) - rhs (k - 1)) / (r (k + 1) - r (k - 1))))
            0)) ∧
      ((((ucr (k + 1) - ucr (k - 1)) / (r (k + 1) - r (k - 1))) ^ 2 +
          2 * ((rhs (k + 1) - rhs (k - 1)) / (r (k + 1) - r (k - 1))) < 0 →
        (critSlope r rhs ucr steps (k : ℤ)).warned = true)) ∧
      (critSlope r rhs ucr steps (k : ℤ)).rC = r k ∧
      (critSlope r rhs ucr steps (k : ℤ)).uC = ucr k := by
  have hne : (k : ℤ) ≠ -1 := by omega
  have htn : (k : ℤ).toNat = k := Int.toNat_natCast k
  have hqu : quickDeriv ucr r steps k =
      (ucr (k + 1) - ucr (k - 1)) / (r (k + 1) - r (k - 1)) := by
    unfold quickDeriv
    rw [if_neg (by omega), if_neg (by omega)]
  have hqr : quickDeriv rhs r steps k =
      (rhs (k + 1) - rhs (k - 1)) / (r (k + 1) - r (k - 1)) := by
    unfold quickDeriv
    rw [if_neg (by omega), if_neg (by omega)]
  unfold critSlope
  rw [if_neg hne, htn, hqu, hqr]
  split_ifs with hrad
  · refine ⟨?_, fun _ => rfl, rfl, rfl⟩
    show 1 / 2 * (_ + Real.sqrt 0) = _
    rw [max_eq_right hrad]
  · refine ⟨?_, fun h => absurd (le_of_lt h) hrad, rfl, rfl⟩
    show 1 / 2 * (_ + Real.sqrt _) = _
    rw [max_eq_left (le_of_lt (not_le.mp hrad))]

/-- Witness for claim C7 at a concrete interior index. -/
theorem claim_C7_crit_slope_witness :
    (critSlope (fun i => (i : ℝ)) (fun _ => 1) (fun _ => 1) 3 (1 : ℤ)).rC =
      1 := by
  have h := claim_C7_crit_slope (fun i => (i : ℝ)) (fun _ => 1) (fun _ => 1)
    3 1 (by norm_num) (by norm_num)
  simpa using h.2.2.1

/-- Claim C8: in both shooting passes of `slope2curve`, a step whose raw
RK4 result is negative substitutes the previous point's value (and sets the
warning condition) and the pass continues; a step whose raw result is
nonnegative stores the raw RK4 result itself.  Stated for every index `i`
processed by the downward loop (`1 ≤ i ≤ iC-1`, producing `u[i-1]`) and
every index `j` processed by the upward loop (`j ≥ iC+2`, producing
`u[j+1]`). -/
theorem claim_C8_negative_velocity_policy (r ucrj rhsj : List ℝ) (iC : ℕ)
    (rpt upt d0 d1 : ℝ) (i j : ℕ) (hi1 : 1 ≤ i) (hi2 : i + 1 ≤ iC)
    (hj : iC + 2 ≤ j) :
    (slope2curve r iC rpt upt d0 d1 ucrj rhsj (i - 1) =
        if shootDownRaw r ucrj rhsj
            (slope2curve r iC rpt upt d0 d1 ucrj rhsj i) i < 0 then
          slope2curve r iC rpt upt d0 d1 ucrj rhsj i
        else shootDownRaw r ucrj rhsj
            (slope2curve r iC rpt upt d0 d1 ucrj rhsj i) i) ∧
      (downWarned r ucrj rhsj (slope2curve r iC rpt upt d0 d1 ucrj rhsj i) i =
          true ↔
        shootDownRaw r ucrj rhsj
          (slope2curve r iC rpt upt d0 d1 ucrj rhsj i) i < 0) ∧
      (slope2curve r iC rpt upt d0 d1 ucrj rhsj (j + 1) =
        if shootUpRaw r ucrj rhsj
            (slope2curve r iC rpt upt d0 d1 ucrj rhsj j) j < 0 then
          slope2curve r iC rpt upt d0 d1 ucrj rhsj j
        else shootUpRaw r ucrj rhsj
            (slope2curve r iC rpt upt d0 d1 ucrj rhsj j) j) ∧
      (upWarned r ucrj rhsj (slope2curve r iC rpt upt d0 d1 ucrj rhsj j) j =
          true ↔
        shootUpRaw r ucrj rhsj
          (slope2curve r iC rpt upt d0 d1 ucrj rhsj j) j < 0) := by
  have hui : slope2curve r iC rpt upt d0 d1 ucrj rhsj i =
      shootDownSeq r ucrj rhsj iC rpt upt d0 (iC - 1 - i) := by
    unfold slope2curve
    rw [if_pos hi2]
  have hui1 : slope2curve r iC rpt upt d0 d1 ucrj rhsj (i - 1) =
      shootDownSeq r ucrj rhsj iC rpt upt d0 ((iC - 1 - i) + 1) := by
    unfold slope2curve
    rw [if_pos (by omega : (i - 1) + 1 ≤ iC),
      show iC - 1 - (i - 1) = (iC - 1 - i) + 1 by omega]
  have hkeyd : shootDownSeq r ucrj rhsj iC rpt upt d0 ((iC - 1 - i) + 1) =
      if shootDownRaw r ucrj rhsj
          (shootDownSeq r ucrj rhsj iC rpt upt d0 (iC - 1 - i)) i < 0 then
        shootDownSeq r ucrj rhsj iC rpt upt d0 (iC - 1 - i)
      else shootDownRaw r ucrj rhsj
          (shootDownSeq r ucrj rhsj iC rpt upt d0 (iC - 1 - i)) i := by
    simp only [shootDownSeq]
    rw [show iC - 1 - (iC - 1 - i) = i by omega]
  have huj : slope2curve r iC rpt upt d0 d1 ucrj rhsj j =
      shootUpSeq r ucrj rhsj iC rpt upt d1 (j - (iC + 2)) := by
    unfold slope2curve
    rw [if_neg (by omega), if_neg (by omega), if_neg (by omega)]
  have huj1 : slope2curve r iC rpt upt d0 d1 ucrj rhsj (j + 1) =
      shootUpSeq r ucrj rhsj iC rpt upt d1 ((j - (iC + 2)) + 1) := by
    unfold slope2curve
    rw [if_neg (by omega), if_neg (by omega), if_neg (by omega),
      show j + 1 - (iC + 2) = (j - (iC + 2)) + 1 by omega]
  have hkeyu : shootUpSeq r ucrj rhsj iC rpt upt d1 ((j - (iC + 2)) + 1) =
      if shootUpRaw r ucrj rhsj
          (shootUpSeq r ucrj rhsj iC rpt upt d1 (j - (iC + 2))) j < 0 then
        shootUpSeq r ucrj rhsj iC rpt upt d1 (j - (iC + 2))
      else shootUpRaw r ucrj rhsj
          (shootUpSeq r ucrj rhsj iC rpt upt d1 (j - (iC + 2))) j := by
    simp only [shootUpSeq]
    rw [show iC + 2 + (j - (iC + 2)) = j by omega]
  refine ⟨?_, ?_, ?_, ?_⟩
  · rw [hui, hui1, hkeyd]
  · simp [downWarned]
  · rw [huj, huj1, hkeyu]
  · simp [upWarned]

/-- Witness for claim C8 at a concrete critical index and step indices. -/
theorem claim_C8_negative_velocity_policy_witness :
    slope2curve warnR 2 1 1 1 1 [1, 1, 1, 1, 1] [1, 1, -1, -1, -1] 0 =
      if shootDownRaw warnR [1, 1, 1, 1, 1] [1, 1, -1, -1, -1]
          (slope2curve warnR 2 1 1 1 1 [1, 1, 1, 1, 1] [1, 1, -1, -1, -1] 1)
          1 < 0 then
        slope2curve warnR 2 1 1 1 1 [1, 1, 1, 1, 1] [1, 1, -1, -1, -1] 1
      else shootDownRaw warnR [1, 1, 1, 1, 1] [1, 1, -1, -1, -1]
          (slope2curve warnR 2 1 1 1 1 [1, 1, 1, 1, 1] [1, 1, -1, -1, -1] 1)
          1 :=
  (claim_C8_negative_velocity_policy warnR [1, 1, 1, 1, 1] [1, 1, -1, -1, -1]
    2 1 1 1 1 1 4 (by norm_num) (by norm_num) (by norm_num)).1

/-- Claim C9: when model `j` has no candidate root, `outflows` marks it with
the sentinel `icrit = -1`, reports the no-critical-point warning, leaves its
velocity row at the zero initialisation (the shooting propagator is never
invoked for it, since the `slope2curve` branch is guarded by
`icrit != -1`), while every model with a nonempty candidate list gets a
non-sentinel index and its velocity profile from `slope2curve` as usual. -/
theorem claim_C9_sentinel (r : List ℝ) (rhss ucrs : List (List ℝ)) (n j : ℕ)
    (hempty : rootsAt rhss n j = []) :
    icrit r rhss n j = -1 ∧ noCritWarn rhss n j = true ∧
      (∀ k, outflowsU r rhss ucrs n j k = 0) ∧
      ∀ jp, rootsAt rhss n jp ≠ [] →
        icrit r rhss n jp ≠ -1 ∧
        outflowsU r rhss ucrs n jp =
          slope2curve r (icrit r rhss n jp).toNat
            (((outflowsCminus r rhss ucrs n jp).rC +
              (outflowsCplus r rhss ucrs n jp).rC) / 2)
            (((outflowsCminus r rhss ucrs n jp).uC +
              (outflowsCplus r rhss ucrs n jp).uC) / 2)
            (outflowsCminus r rhss ucrs n jp).dUdrc
            (outflowsCplus r rhss ucrs n jp).dUdrc
            (ucrs.getD jp []) (rhss.getD jp []) := by
  have hic : icrit r rhss n j = -1 := by
    unfold icrit
    rw [hempty]
  refine ⟨hic, ?_, ?_, ?_⟩
  · simp [noCritWarn, hempty]
  · intro k
    show (if icrit r rhss n j ≠ -1 then _ else fun _ => (0 : ℝ)) k = 0
    rw [if_neg (fun h => h hic)]
  · intro jp hne
    cases hr : rootsAt rhss n jp with
    | nil => exact absurd hr hne
    | cons b t =>
      have hicp : icrit r rhss n jp =
          ((selectMinGo (Fprof r (rhss.getD jp [])) b t : ℕ) : ℤ) := by
        unfold icrit
        rw [hr]
      have hnz : icrit r rhss n jp ≠ -1 := by
        rw [hicp]
        omega
      exact ⟨hnz, by unfold outflowsU; rw [if_pos hnz]⟩

/-- Witness for claim C9 at the concrete two-model batch whose model 0 has
no candidate root. -/
theorem claim_C9_sentinel_witness :
    icrit warnR warnRhss 5 0 = -1 ∧ noCritWarn warnRhss 5 0 = true := by
  have h : rootsAt warnRhss 5 0 = [] := by
    simp only [rootsAt, rootflagAfter, ownRoot, npSign, warnRhss]
    norm_num [List.range_succ, List.filter_cons, List.any_cons, List.any_nil]
  have hc := claim_C9_sentinel warnR warnRhss warnUcrs 5 0 h
  exact ⟨hc.1, hc.2.1⟩

end Tempest

